import Mathlib

/-!
Verification development for the realm-cli application state diff engine.

The Go handlers `CommandDiff.Handler` (internal/commands/app/describe.go) and
`CommandDelete.Handler` (internal/commands/secrets/delete.go) are embedded as
Lean functions over abstract client oracles, recording an event trace of every
external call and every terminal print.  The facet diff algorithms themselves
(configuration / dependency / hosting diff and the asset cache) live outside
the available source tree and are modelled from the specification.
-/

namespace RealmCli

/-- A local application as returned by `local.LoadApp`: its root directory and
an opaque payload standing for `app.AppData`. -/
structure LocalApp where
  rootDir : String
  appData : Nat
  deriving DecidableEq, Repr

/-- A resolved remote application, as returned by `cli.ResolveApp`. -/
structure RealmApp where
  groupID : String
  id : String
  deriving DecidableEq, Repr

/-- The flag inputs of the `app diff` command (`diffInputs`). -/
structure DiffInputs where
  localPath : String
  remoteApp : String
  project : String
  includeDependencies : Bool
  includeHosting : Bool
  deriving DecidableEq, Repr

/-- The profile context; only the hosting asset cache path is consulted by the
diff handler. -/
structure Profile where
  hostingAssetCachePath : String
  deriving DecidableEq, Repr

/-- Observable events of one diff-handler invocation: each external call made
and each terminal print, in order. -/
inductive DiffEvent where
  | loadApp (path : String)
  | resolveApp
  | configDiff (groupID appID : String)
  | prepareDependencies
  | diffDependencies (groupID appID : String)
  | findAppHosting (rootDir : String)
  | hostingAssets (groupID appID : String)
  | hostingDiffs (cachePath appID : String)
  | printIdentical
  | printDiffs (diffs : List String)
  deriving DecidableEq, Repr

/-- The external collaborators the `app diff` handler calls, as oracles.
Each `Except` models the Go `(value, error)` pair at the call site. -/
structure Clients where
  loadApp : String → Except String LocalApp
  resolveApp : Except String RealmApp
  diff : String → String → Nat → Except String (List String)
  prepareDependencies : LocalApp → Except String String
  diffDependencies : String → String → String → Except String (List String)
  findAppHosting : String → Except String Nat
  hostingAssets : String → String → Except String Nat
  hostingDiffs : Nat → String → String → Nat → Except String (List String)

/-- The dependency phase of `CommandDiff.Handler` (describe.go lines 157-169):
when `includeDependencies` is set, prepare the dependency archive and diff it
remotely; otherwise contribute nothing. Returns the events of this phase and
either the dependency diff strings or the first error. -/
def depPhase (c : Clients) (inp : DiffInputs) (app : LocalApp) (r : RealmApp) :
    List DiffEvent × Except String (List String) :=
  if inp.includeDependencies then
    match c.prepareDependencies app with
    | .error e => ([.prepareDependencies], .error e)
    | .ok uploadPath =>
      match c.diffDependencies r.groupID r.id uploadPath with
      | .error e => ([.prepareDependencies, .diffDependencies r.groupID r.id], .error e)
      | .ok ds => ([.prepareDependencies, .diffDependencies r.groupID r.id], .ok ds)
  else ([], .ok [])

/-- The hosting phase of `CommandDiff.Handler` (describe.go lines 171-188):
when `includeHosting` is set, locate the local hosting files, fetch the remote
asset manifest, and compute the hosting diffs through the asset cache. -/
def hostPhase (c : Clients) (prof : Profile) (inp : DiffInputs) (app : LocalApp)
    (r : RealmApp) : List DiffEvent × Except String (List String) :=
  if inp.includeHosting then
    match c.findAppHosting app.rootDir with
    | .error e => ([.findAppHosting app.rootDir], .error e)
    | .ok hosting =>
      match c.hostingAssets r.groupID r.id with
      | .error e => ([.findAppHosting app.rootDir, .hostingAssets r.groupID r.id], .error e)
      | .ok assets =>
        match c.hostingDiffs hosting prof.hostingAssetCachePath r.id assets with
        | .error e =>
            ([.findAppHosting app.rootDir, .hostingAssets r.groupID r.id,
              .hostingDiffs prof.hostingAssetCachePath r.id], .error e)
        | .ok ds =>
            ([.findAppHosting app.rootDir, .hostingAssets r.groupID r.id,
              .hostingDiffs prof.hostingAssetCachePath r.id], .ok ds)
  else ([], .ok [])

/-- Embedding of `CommandDiff.Handler` (describe.go lines 137-202): load the
local app, fail when no app directory is found, resolve the remote app, run
the configuration diff, optionally the dependency and hosting phases, and
print either the identical-apps sentinel or the joined diff strings.  The
result carries the final `diffs` slice on success. -/
def commandDiffHandler (c : Clients) (prof : Profile) (inp : DiffInputs) :
    List DiffEvent × Except String (List String) :=
  match c.loadApp inp.localPath with
  | .error e => ([.loadApp inp.localPath], .error e)
  | .ok app =>
    if app.rootDir = "" then
      ([.loadApp inp.localPath], .error ("no app directory found at " ++ inp.localPath))
    else
      match c.resolveApp with
      | .error e => ([.loadApp inp.localPath, .resolveApp], .error e)
      | .ok appToDiff =>
        match c.diff appToDiff.groupID appToDiff.id app.appData with
        | .error e =>
            ([.loadApp inp.localPath, .resolveApp, .configDiff appToDiff.groupID appToDiff.id],
             .error e)
        | .ok diffs0 =>
          let tr0 := [DiffEvent.loadApp inp.localPath, .resolveApp,
            .configDiff appToDiff.groupID appToDiff.id]
          match depPhase c inp app appToDiff with
          | (trD, .error e) => (tr0 ++ trD, .error e)
          | (trD, .ok diffs1) =>
            match hostPhase c prof inp app appToDiff with
            | (trH, .error e) => (tr0 ++ trD ++ trH, .error e)
            | (trH, .ok diffs2) =>
              let diffs := diffs0 ++ diffs1 ++ diffs2
              (tr0 ++ trD ++ trH ++
                [if diffs = [] then DiffEvent.printIdentical else .printDiffs diffs],
               .ok diffs)

/-- Whether a diff event is a terminal print. -/
def DiffEvent.isPrint : DiffEvent → Bool
  | .printIdentical => true
  | .printDiffs _ => true
  | _ => false

/-- The prints among a trace, in order. -/
def printEvents (tr : List DiffEvent) : List DiffEvent :=
  tr.filter DiffEvent.isPrint

/-- Whether a diff event is an interaction with the dependency accessor, the
hosting accessor, or the asset cache. -/
def DiffEvent.touchesDepHostCache : DiffEvent → Bool
  | .prepareDependencies => true
  | .diffDependencies _ _ => true
  | .findAppHosting _ => true
  | .hostingAssets _ _ => true
  | .hostingDiffs _ _ => true
  | _ => false

/-- The error `e` is exactly (verbatim) an error produced at one of the diff
handler's steps: the local load, the missing-app-directory check, the remote
resolution, or one of the facet accessors. -/
def verbatimStepError (c : Clients) (inp : DiffInputs) (e : String) : Prop :=
  c.loadApp inp.localPath = Except.error e ∨
  e = "no app directory found at " ++ inp.localPath ∨
  c.resolveApp = Except.error e ∨
  (∃ g i d, c.diff g i d = Except.error e) ∨
  (∃ a, c.prepareDependencies a = Except.error e) ∨
  (∃ g i u, c.diffDependencies g i u = Except.error e) ∨
  (∃ rd, c.findAppHosting rd = Except.error e) ∨
  (∃ g i, c.hostingAssets g i = Except.error e) ∨
  (∃ hh cp aid aa, c.hostingDiffs hh cp aid aa = Except.error e)

/-- The three comparison facets. -/
inductive Facet where
  | config
  | dependency
  | hosting
  deriving DecidableEq, Repr

/-- The three kinds of diff entry. -/
inductive DiffOp where
  | added
  | removed
  | changed
  deriving DecidableEq, Repr

/-- A single diff entry: operation, path, facet and a detail string. -/
structure DiffEntry where
  op : DiffOp
  path : String
  facet : Facet
  detail : String
  deriving DecidableEq, Repr

/-- A configuration tree: an ordered-by-path association of relative path to
file content (bytes). -/
abbrev ConfigTree := List (String × List Nat)

/-- First content stored under a path in a configuration tree. -/
def lookupPath (t : ConfigTree) (p : String) : Option (List Nat) :=
  match t with
  | [] => none
  | (q, c) :: rest => if q = p then some c else lookupPath rest p

/-- Modelled from the spec: the Configuration Diff Algorithm (missing from the
available source; only its remote invocation site `clients.Realm.Diff` is
present).  Every path present only locally yields `Added`, only remotely
`Removed`, in both with differing content `Changed`, identical content no
entry. -/
def configDiff (l r : ConfigTree) : List DiffEntry :=
  (l.filterMap fun pc =>
    match lookupPath r pc.1 with
    | none => some ⟨.added, pc.1, .config, ""⟩
    | some c2 => if pc.2 = c2 then none else some ⟨.changed, pc.1, .config, ""⟩)
  ++ (r.filterMap fun pc =>
    match lookupPath l pc.1 with
    | none => some ⟨.removed, pc.1, .config, ""⟩
    | some _ => none)

/-- One side's dependency archive state: presence and optional content digest. -/
structure DependencySnapshot where
  present : Bool
  digest : Option Nat
  deriving DecidableEq, Repr

/-- Modelled from the spec: the Dependency Diff Algorithm (missing from the
available source; only its remote invocation site `clients.Realm.DiffDependencies`
is present).  Zero or one entry according to presence and digest equality. -/
def dependencyDiff (l r : DependencySnapshot) : List DiffEntry :=
  match l.present, r.present with
  | false, false => []
  | true, false => [⟨.added, "dependency-archive", .dependency, ""⟩]
  | false, true => [⟨.removed, "dependency-archive", .dependency, ""⟩]
  | true, true =>
    if l.digest = r.digest then []
    else [⟨.changed, "dependency-archive", .dependency, ""⟩]

/-- A hosting asset as listed by the remote manifest: path, content digest and
attributes such as content-type. -/
structure HostingAsset where
  path : String
  digest : Nat
  attrs : List (String × String)
  deriving DecidableEq, Repr

/-- A local hosting file: path, content bytes, modification signature
(size and mtime) and attributes. -/
structure HostingFile where
  path : String
  content : List Nat
  size : Nat
  mtime : Nat
  attrs : List (String × String)
  deriving DecidableEq, Repr

/-- The asset a local hosting file denotes once its content is hashed. -/
def localAsset (hash : List Nat → Nat) (f : HostingFile) : HostingAsset :=
  ⟨f.path, hash f.content, f.attrs⟩

/-- First asset with the given path in a manifest. -/
def findAsset (m : List HostingAsset) (p : String) : Option HostingAsset :=
  match m with
  | [] => none
  | a :: rest => if a.path = p then some a else findAsset rest p

/-- Modelled from the spec: classification of one local hosting asset against
the remote manifest — `Added` when absent remotely, `Changed`/"content" on a
digest mismatch, `Changed`/"attributes" on equal digest but differing
attributes, no entry otherwise. -/
def hostingEntry (la : HostingAsset) (m : List HostingAsset) : Option DiffEntry :=
  match findAsset m la.path with
  | none => some ⟨.added, la.path, .hosting, ""⟩
  | some ra =>
    if la.digest ≠ ra.digest then some ⟨.changed, la.path, .hosting, "content"⟩
    else if la.attrs ≠ ra.attrs then some ⟨.changed, la.path, .hosting, "attributes"⟩
    else none

/-- Modelled from the spec: the Hosting Diff Algorithm on already-hashed local
assets (missing from the available source; only its invocation site
`hosting.Diffs` is present): local entries first, then `Removed` entries for
manifest assets absent locally. -/
def hostingDiffCore (locals manifest : List HostingAsset) : List DiffEntry :=
  locals.filterMap (fun la => hostingEntry la manifest)
  ++ manifest.filterMap (fun ra =>
    match findAsset locals ra.path with
    | none => some ⟨.removed, ra.path, .hosting, ""⟩
    | some _ => none)

/-- A persisted asset cache entry, keyed by (appID, path), recording the
digest together with the file's modification signature at hashing time. -/
structure AssetCacheEntry where
  appID : String
  path : String
  digest : Nat
  sizeSig : Nat
  mtimeSig : Nat
  deriving DecidableEq, Repr

/-- The asset cache store: either unusable (read/write failure, `CacheError`)
or a working list of entries. -/
inductive CacheStore where
  | broken
  | ok (entries : List AssetCacheEntry)
  deriving DecidableEq, Repr

/-- First cache entry for the key (appID, path). -/
def cacheLookup (es : List AssetCacheEntry) (appID p : String) :
    Option AssetCacheEntry :=
  match es with
  | [] => none
  | e :: rest =>
    if e.appID = appID ∧ e.path = p then some e else cacheLookup rest appID p

/-- Insert-or-replace of a cache entry under its (appID, path) key. -/
def cachePut (es : List AssetCacheEntry) (e : AssetCacheEntry) :
    List AssetCacheEntry :=
  match es with
  | [] => [e]
  | e0 :: rest =>
    if e0.appID = e.appID ∧ e0.path = e.path then e :: rest
    else e0 :: cachePut rest e

/-- Modelled from the spec: digest of one local hosting file through the asset
cache.  A working cache entry whose recorded signature matches the file is
reused without hashing; otherwise the file is hashed and the entry is
insert-or-replaced.  A broken store always hashes and stays broken.  Returns
the digest, the store after the step, and the number of hash computations. -/
def digestFor (hash : List Nat → Nat) (store : CacheStore) (appID : String)
    (f : HostingFile) : Nat × CacheStore × Nat :=
  match store with
  | .broken => (hash f.content, .broken, 1)
  | .ok es =>
    match cacheLookup es appID f.path with
    | some e =>
      if e.sizeSig = f.size ∧ e.mtimeSig = f.mtime then (e.digest, .ok es, 0)
      else
        (hash f.content,
         .ok (cachePut es ⟨appID, f.path, hash f.content, f.size, f.mtime⟩), 1)
    | none =>
      (hash f.content,
       .ok (cachePut es ⟨appID, f.path, hash f.content, f.size, f.mtime⟩), 1)

/-- Hash all local hosting files through the cache, left to right, threading
the store and counting hash computations. -/
def hostingLocalsWithCache (hash : List Nat → Nat) (store : CacheStore)
    (appID : String) : List HostingFile → List HostingAsset × CacheStore × Nat
  | [] => ([], store, 0)
  | f :: fs =>
    let step := digestFor hash store appID f
    let rest := hostingLocalsWithCache hash step.2.1 appID fs
    (⟨f.path, step.1, f.attrs⟩ :: rest.1, rest.2.1, step.2.2 + rest.2.2)

/-- Modelled from the spec: one hosting-diff run — hash the local files
through the cache, then compare against the remote manifest.  Returns the
entries, the store after the run, and the number of hash computations. -/
def hostingDiffWithCache (hash : List Nat → Nat) (store : CacheStore)
    (appID : String) (files : List HostingFile) (manifest : List HostingAsset) :
    List DiffEntry × CacheStore × Nat :=
  let locals := hostingLocalsWithCache hash store appID files
  (hostingDiffCore locals.1 manifest, locals.2.1, locals.2.2)

/-- One side of an application's state across the three facets. -/
structure Snapshot where
  config : ConfigTree
  dependency : DependencySnapshot
  hostingFiles : List HostingFile

/-- The operator-selected diff scope. -/
structure DiffOptions where
  includeDependencies : Bool
  includeHosting : Bool
  deriving DecidableEq, Repr

/-- The hosting manifest a snapshot denotes on the remote side. -/
def manifestOf (hash : List Nat → Nat) (s : Snapshot) : List HostingAsset :=
  s.hostingFiles.map (localAsset hash)

/-- Modelled from the spec: the engine surface
`diff(local, remote, options) -> sequence<DiffEntry>` — configuration facet
always, the dependency and hosting facets when requested, concatenated in the
fixed facet order. -/
def diffEngine (hash : List Nat → Nat) (l r : Snapshot) (opts : DiffOptions) :
    List DiffEntry :=
  configDiff l.config r.config
  ++ (if opts.includeDependencies then dependencyDiff l.dependency r.dependency
      else [])
  ++ (if opts.includeHosting then
        hostingDiffCore (l.hostingFiles.map (localAsset hash)) (manifestOf hash r)
      else [])

/-- A secret held by an app: id and name. -/
structure Secret where
  id : String
  name : String
  deriving DecidableEq, Repr

/-- One row of the deletion report: the secret and the deletion error, if any
(`secretOutput` in delete.go). -/
structure SecretOutput where
  secret : Secret
  err : Option String
  deriving DecidableEq, Repr

/-- Observable events of one `secrets delete` invocation. -/
inductive SecretsEvent where
  | deleteSecret (id : String)
  | printNoSecrets
  | printTable (rows : List SecretOutput)
  deriving DecidableEq, Repr

/-- The external collaborators the `secrets delete` handler calls, as oracles.
`deleteSecret` returns `none` on success and `some e` for the error `e`. -/
structure SecretsClients where
  resolveApp : Except String RealmApp
  secrets : String → String → Except String (List Secret)
  resolveSecrets : List Secret → Except String (List Secret)
  deleteSecret : String → String → String → Option String

/-- The comparison `sort.SliceStable` is invoked with in delete.go lines 68-70:
row `a` is ordered before `b` exactly when `a` failed and `b` succeeded. -/
def lessDelete (a b : SecretOutput) : Bool :=
  a.err.isSome && b.err.isNone

/-- Insert into an already-sorted list at the earliest position compatible
with `less`, as a stable sort does for an element that originally came before
the whole list. -/
def stableInsert (less : SecretOutput → SecretOutput → Bool) (a : SecretOutput) :
    List SecretOutput → List SecretOutput
  | [] => [a]
  | b :: l => if less b a then b :: stableInsert less a l else a :: b :: l

/-- Stable sort by the strict comparison `less`, the contract of Go's
`sort.SliceStable`. -/
def stableSortBy (less : SecretOutput → SecretOutput → Bool) :
    List SecretOutput → List SecretOutput
  | [] => []
  | a :: l => stableInsert less a (stableSortBy less l)

/-- Embedding of `CommandDelete.Handler` (delete.go lines 41-78): resolve the
app, fetch and select secrets, print the no-secrets message when the
selection is empty, otherwise attempt deletion of every selected secret,
stable-sort the rows failures-first, and print the table.  The handler
returns `ok` whenever the three resolution steps succeed, regardless of
per-secret deletion failures. -/
def commandDeleteHandler (c : SecretsClients) :
    List SecretsEvent × Except String Unit :=
  match c.resolveApp with
  | .error e => ([], .error e)
  | .ok app =>
    match c.secrets app.groupID app.id with
    | .error e => ([], .error e)
    | .ok secrets =>
      match c.resolveSecrets secrets with
      | .error e => ([], .error e)
      | .ok selected =>
        if selected = [] then ([.printNoSecrets], .ok ())
        else
          let outputs := selected.map fun s =>
            SecretOutput.mk s (c.deleteSecret app.groupID app.id s.id)
          ((selected.map fun s => SecretsEvent.deleteSecret s.id)
            ++ [.printTable (stableSortBy lessDelete outputs)], .ok ())

/-- Concrete collaborators used to exercise the diff handler on a fully
successful run. -/
def sampleClients : Clients where
  loadApp := fun _ => .ok ⟨"root", 0⟩
  resolveApp := .ok ⟨"g", "a"⟩
  diff := fun _ _ _ => .ok ["c1"]
  prepareDependencies := fun _ => .ok "up"
  diffDependencies := fun _ _ _ => .ok ["d1"]
  findAppHosting := fun _ => .ok 0
  hostingAssets := fun _ _ => .ok 0
  hostingDiffs := fun _ _ _ _ => .ok ["h1"]

/-- Collaborators agreeing with `sampleClients` on the configuration facet
but entirely different on the dependency and hosting facets. -/
def sampleClientsAlt : Clients :=
  { sampleClients with
    prepareDependencies := fun _ => .error "archive build failed"
    diffDependencies := fun _ _ _ => .error "service down"
    findAppHosting := fun _ => .error "no hosting dir"
    hostingAssets := fun _ _ => .error "service down"
    hostingDiffs := fun _ _ _ _ => .error "cache unreadable" }

/-- Concrete collaborators whose every facet yields no differences. -/
def quietClients : Clients where
  loadApp := fun _ => .ok ⟨"root", 0⟩
  resolveApp := .ok ⟨"g", "a"⟩
  diff := fun _ _ _ => .ok []
  prepareDependencies := fun _ => .ok "up"
  diffDependencies := fun _ _ _ => .ok []
  findAppHosting := fun _ => .ok 0
  hostingAssets := fun _ _ => .ok 0
  hostingDiffs := fun _ _ _ _ => .ok []

/-- Concrete collaborators whose local load fails. -/
def failingLoadClients : Clients where
  loadApp := fun _ => .error "open: no such file"
  resolveApp := .ok ⟨"g", "a"⟩
  diff := fun _ _ _ => .ok ["c1"]
  prepareDependencies := fun _ => .ok "up"
  diffDependencies := fun _ _ _ => .ok ["d1"]
  findAppHosting := fun _ => .ok 0
  hostingAssets := fun _ _ => .ok 0
  hostingDiffs := fun _ _ _ _ => .ok ["h1"]

/-- Concrete collaborators that load an app with an empty root directory. -/
def rootlessClients : Clients where
  loadApp := fun _ => .ok ⟨"", 0⟩
  resolveApp := .ok ⟨"g", "a"⟩
  diff := fun _ _ _ => .ok ["c1"]
  prepareDependencies := fun _ => .ok "up"
  diffDependencies := fun _ _ _ => .ok ["d1"]
  findAppHosting := fun _ => .ok 0
  hostingAssets := fun _ _ => .ok 0
  hostingDiffs := fun _ _ _ _ => .ok ["h1"]

/-- A working cache is coherent with a set of local files when every entry
whose key and recorded signature match a file carries that file's content
digest — the cache-validity invariant of the data model. -/
def cacheCoherent (hash : List Nat → Nat) (appID : String)
    (es : List AssetCacheEntry) (files : List HostingFile) : Prop :=
  ∀ e ∈ es, ∀ f ∈ files, e.appID = appID → e.path = f.path →
    e.sizeSig = f.size → e.mtimeSig = f.mtime → e.digest = hash f.content

/-- Concrete secrets collaborators: two selected secrets, deletion of the
first fails, deletion of the second succeeds. -/
def sampleSecretsClients : SecretsClients where
  resolveApp := .ok ⟨"g", "a"⟩
  secrets := fun _ _ => .ok [⟨"1", "x"⟩, ⟨"2", "y"⟩]
  resolveSecrets := fun s => .ok s
  deleteSecret := fun _ _ sid => if sid = "1" then some "delete failed" else none

/-! ### Helper lemmas -/

theorem lookupPath_self {t : ConfigTree} (hnd : (t.map Prod.fst).Nodup)
    {p : String} {c : List Nat} (hmem : (p, c) ∈ t) : lookupPath t p = some c := by
  induction t with
  | nil => cases hmem
  | cons qc rest ih =>
    obtain ⟨q, c0⟩ := qc
    simp only [List.map_cons, List.nodup_cons] at hnd
    rcases List.mem_cons.mp hmem with heq | hmem'
    · rw [← heq]
      simp [lookupPath]
    · have hqp : q ≠ p := by
        intro h
        exact hnd.1 (h ▸ List.mem_map_of_mem Prod.fst hmem')
      simp [lookupPath, hqp, ih hnd.2 hmem']

theorem configDiff_refl (t : ConfigTree) (hnd : (t.map Prod.fst).Nodup) :
    configDiff t t = [] := by
  unfold configDiff
  rw [List.append_eq_nil]
  constructor
  · rw [List.filterMap_eq_nil]
    intro pc hmem
    rw [lookupPath_self hnd (by exact hmem)]
    simp
  · rw [List.filterMap_eq_nil]
    intro pc hmem
    rw [lookupPath_self hnd (by exact hmem)]

theorem dependencyDiff_refl (d : DependencySnapshot) : dependencyDiff d d = [] := by
  obtain ⟨p, dg⟩ := d
  cases p <;> simp [dependencyDiff]

theorem findAsset_self {m : List HostingAsset}
    (hnd : (m.map HostingAsset.path).Nodup) {a : HostingAsset} (hmem : a ∈ m) :
    findAsset m a.path = some a := by
  induction m with
  | nil => cases hmem
  | cons b rest ih =>
    simp only [List.map_cons, List.nodup_cons] at hnd
    rcases List.mem_cons.mp hmem with heq | hmem'
    · simp [findAsset, heq]
    · have hbp : b.path ≠ a.path := by
        intro h
        exact hnd.1 (h ▸ List.mem_map_of_mem HostingAsset.path hmem')
      simp [findAsset, hbp, ih hnd.2 hmem']

theorem hostingDiffCore_refl (m : List HostingAsset)
    (hnd : (m.map HostingAsset.path).Nodup) : hostingDiffCore m m = [] := by
  unfold hostingDiffCore
  rw [List.append_eq_nil]
  constructor
  · rw [List.filterMap_eq_nil]
    intro a hmem
    simp [hostingEntry, findAsset_self hnd hmem]
  · rw [List.filterMap_eq_nil]
    intro a hmem
    simp [findAsset_self hnd hmem]

theorem depPhase_no_print (c : Clients) (inp : DiffInputs) (app : LocalApp)
    (r : RealmApp) : ∀ ev ∈ (depPhase c inp app r).1, ev.isPrint = false := by
  intro ev hev
  unfold depPhase at hev
  split at hev
  · split at hev
    · simp at hev
      simp [hev, DiffEvent.isPrint]
    · split at hev <;> simp at hev <;>
        rcases hev with h | h <;> simp [h, DiffEvent.isPrint]
  · simp at hev

theorem hostPhase_no_print (c : Clients) (prof : Profile) (inp : DiffInputs)
    (app : LocalApp) (r : RealmApp) :
    ∀ ev ∈ (hostPhase c prof inp app r).1, ev.isPrint = false := by
  intro ev hev
  unfold hostPhase at hev
  split at hev
  · split at hev
    · simp at hev
      simp [hev, DiffEvent.isPrint]
    · split at hev
      · simp at hev
        rcases hev with h | h <;> simp [h, DiffEvent.isPrint]
      · split at hev <;> simp at hev <;>
          rcases hev with h | h | h <;> simp [h, DiffEvent.isPrint]
  · simp at hev

theorem printEvents_depPhase (c : Clients) (inp : DiffInputs) (app : LocalApp)
    (r : RealmApp) : printEvents (depPhase c inp app r).1 = [] := by
  rw [printEvents, List.filter_eq_nil]
  intro ev hev
  simp [depPhase_no_print c inp app r ev hev]

theorem printEvents_hostPhase (c : Clients) (prof : Profile) (inp : DiffInputs)
    (app : LocalApp) (r : RealmApp) :
    printEvents (hostPhase c prof inp app r).1 = [] := by
  rw [printEvents, List.filter_eq_nil]
  intro ev hev
  simp [hostPhase_no_print c prof inp app r ev hev]

/-- Inversion of a successful diff-handler run: the trace is the three
configuration-facet events, the dependency-phase events, the hosting-phase
events, and one final print. -/
theorem commandDiffHandler_ok_shape (c : Clients) (prof : Profile)
    (inp : DiffInputs) {ds : List String}
    (h : (commandDiffHandler c prof inp).2 = .ok ds) :
    ∃ app r,
      commandDiffHandler c prof inp =
        ([DiffEvent.loadApp inp.localPath, .resolveApp, .configDiff r.groupID r.id]
          ++ (depPhase c inp app r).1 ++ (hostPhase c prof inp app r).1
          ++ [if ds = [] then DiffEvent.printIdentical else .printDiffs ds],
         .ok ds) := by
  unfold commandDiffHandler at h
  split at h
  · simp at h
  · rename_i app heqLoad
    split at h
    · simp at h
    · rename_i hroot
      split at h
      · simp at h
      · rename_i r heqRes
        split at h
        · simp at h
        · rename_i d0 heqDiff
          split at h
          · simp at h
          · rename_i trD d1 heqD
            split at h
            · simp at h
            · rename_i trH d2 heqH
              rw [Except.ok.injEq] at h
              subst h
              refine ⟨app, r, ?_⟩
              simp [commandDiffHandler, heqLoad, hroot, heqRes, heqDiff,
                heqD, heqH]

theorem depPhase_skip (c : Clients) (inp : DiffInputs) (app : LocalApp)
    (r : RealmApp) (hd : inp.includeDependencies = false) :
    depPhase c inp app r = ([], .ok []) := by
  simp [depPhase, hd]

theorem hostPhase_skip (c : Clients) (prof : Profile) (inp : DiffInputs)
    (app : LocalApp) (r : RealmApp) (hh : inp.includeHosting = false) :
    hostPhase c prof inp app r = ([], .ok []) := by
  simp [hostPhase, hh]

theorem printEvents_append (a b : List DiffEvent) :
    printEvents (a ++ b) = printEvents a ++ printEvents b :=
  List.filter_append ..

theorem depPhase_error (c : Clients) (inp : DiffInputs) (app : LocalApp)
    (r : RealmApp) (e : String) (h : (depPhase c inp app r).2 = .error e) :
    (∃ a, c.prepareDependencies a = Except.error e) ∨
    ∃ g i u, c.diffDependencies g i u = Except.error e := by
  unfold depPhase at h
  split at h
  · split at h
    · rename_i e1 hprep
      simp at h
      exact Or.inl ⟨app, by rw [hprep, h]⟩
    · rename_i up hprep
      split at h
      · rename_i e1 hdd
        simp at h
        exact Or.inr ⟨r.groupID, r.id, up, by rw [hdd, h]⟩
      · simp at h
  · simp at h

theorem hostPhase_error (c : Clients) (prof : Profile) (inp : DiffInputs)
    (app : LocalApp) (r : RealmApp) (e : String)
    (h : (hostPhase c prof inp app r).2 = .error e) :
    (∃ rd, c.findAppHosting rd = Except.error e) ∨
    (∃ g i, c.hostingAssets g i = Except.error e) ∨
    ∃ hh cp aid aa, c.hostingDiffs hh cp aid aa = Except.error e := by
  unfold hostPhase at h
  split at h
  · split at h
    · rename_i e1 hfind
      simp at h
      exact Or.inl ⟨app.rootDir, by rw [hfind, h]⟩
    · rename_i hosting hfind
      split at h
      · rename_i e1 hassets
        simp at h
        exact Or.inr (Or.inl ⟨r.groupID, r.id, by rw [hassets, h]⟩)
      · rename_i assets hassets
        split at h
        · rename_i e1 hhd
          simp at h
          exact Or.inr (Or.inr
            ⟨hosting, prof.hostingAssetCachePath, r.id, assets, by rw [hhd, h]⟩)
        · simp at h
  · simp at h

theorem cacheLookup_cachePut_self (es : List AssetCacheEntry)
    (e : AssetCacheEntry) :
    cacheLookup (cachePut es e) e.appID e.path = some e := by
  induction es with
  | nil => simp [cachePut, cacheLookup]
  | cons e0 rest ih =>
    by_cases h : e0.appID = e.appID ∧ e0.path = e.path
    · simp [cachePut, h, cacheLookup]
    · simp [cachePut, h, cacheLookup, ih]

theorem cacheLookup_mem {es : List AssetCacheEntry} {appID p : String}
    {en : AssetCacheEntry} (h : cacheLookup es appID p = some en) :
    en ∈ es ∧ en.appID = appID ∧ en.path = p := by
  induction es with
  | nil => simp [cacheLookup] at h
  | cons e0 rest ih =>
    by_cases hc : e0.appID = appID ∧ e0.path = p
    · rw [cacheLookup, if_pos hc, Option.some.injEq] at h
      exact ⟨by simp [← h], h ▸ hc.1, h ▸ hc.2⟩
    · rw [cacheLookup, if_neg hc] at h
      obtain ⟨hm, ha, hp⟩ := ih h
      exact ⟨List.mem_cons_of_mem e0 hm, ha, hp⟩

theorem mem_cachePut {es : List AssetCacheEntry} {e e' : AssetCacheEntry}
    (h : e' ∈ cachePut es e) : e' = e ∨ e' ∈ es := by
  induction es with
  | nil =>
    simp [cachePut] at h
    exact Or.inl h
  | cons e0 rest ih =>
    by_cases hc : e0.appID = e.appID ∧ e0.path = e.path
    · rw [cachePut, if_pos hc] at h
      rcases List.mem_cons.mp h with h1 | h1
      · exact Or.inl h1
      · exact Or.inr (List.mem_cons_of_mem e0 h1)
    · rw [cachePut, if_neg hc] at h
      rcases List.mem_cons.mp h with h1 | h1
      · exact Or.inr (h1 ▸ List.mem_cons_self e0 rest)
      · rcases ih h1 with h2 | h2
        · exact Or.inl h2
        · exact Or.inr (List.mem_cons_of_mem e0 h2)

/-- After one cache-mediated digest step on a working store, the store holds
an entry under (appID, path) whose recorded signature is the file's current
signature. -/
theorem digestFor_records (hash : List Nat → Nat) (es : List AssetCacheEntry)
    (appID : String) (f : HostingFile) :
    ∃ es', (digestFor hash (.ok es) appID f).2.1 = .ok es' ∧
      ∃ en, cacheLookup es' appID f.path = some en ∧
        en.sizeSig = f.size ∧ en.mtimeSig = f.mtime := by
  unfold digestFor
  cases hl : cacheLookup es appID f.path with
  | some en =>
    by_cases hsig : en.sizeSig = f.size ∧ en.mtimeSig = f.mtime
    · exact ⟨es, by simp [hl, hsig], en, hl, hsig.1, hsig.2⟩
    · refine ⟨cachePut es ⟨appID, f.path, hash f.content, f.size, f.mtime⟩,
        by simp [hl, hsig], ?_⟩
      refine ⟨⟨appID, f.path, hash f.content, f.size, f.mtime⟩, ?_, rfl, rfl⟩
      have h := cacheLookup_cachePut_self es
        ⟨appID, f.path, hash f.content, f.size, f.mtime⟩
      simpa using h
  | none =>
    refine ⟨cachePut es ⟨appID, f.path, hash f.content, f.size, f.mtime⟩,
      by simp [hl], ?_⟩
    refine ⟨⟨appID, f.path, hash f.content, f.size, f.mtime⟩, ?_, rfl, rfl⟩
    have h := cacheLookup_cachePut_self es
      ⟨appID, f.path, hash f.content, f.size, f.mtime⟩
    simpa using h

/-- On a broken store every file is hashed and the local assets are exactly
the fresh hashes. -/
theorem hostingLocals_broken (hash : List Nat → Nat) (appID : String) :
    ∀ files : List HostingFile,
      hostingLocalsWithCache hash .broken appID files =
        (files.map (localAsset hash), .broken, files.length)
  | [] => by simp [hostingLocalsWithCache]
  | f :: fs => by
    simp [hostingLocalsWithCache, digestFor, localAsset,
      hostingLocals_broken hash appID fs, Nat.add_comm]

/-- On a working store coherent with the files, the cache-mediated local
assets are exactly the fresh hashes, provided file paths are unique. -/
theorem hostingLocals_coherent (hash : List Nat → Nat) (appID : String) :
    ∀ (files : List HostingFile) (es : List AssetCacheEntry),
      (files.map HostingFile.path).Nodup →
      cacheCoherent hash appID es files →
      (hostingLocalsWithCache hash (.ok es) appID files).1 =
        files.map (localAsset hash)
  | [], es, _, _ => by simp [hostingLocalsWithCache]
  | f :: fs, es, hnd, hco => by
    simp only [List.map_cons, List.nodup_cons] at hnd
    have hcofs : cacheCoherent hash appID es fs :=
      fun e he g hg => hco e he g (List.mem_cons_of_mem f hg)
    rw [hostingLocalsWithCache]
    unfold digestFor
    cases hl : cacheLookup es appID f.path with
    | some en =>
      by_cases hsig : en.sizeSig = f.size ∧ en.mtimeSig = f.mtime
      · obtain ⟨hmem, ha, hp⟩ := cacheLookup_mem hl
        have hdig : en.digest = hash f.content :=
          hco en hmem f (List.mem_cons_self f fs) ha hp hsig.1 hsig.2
        simp [hl, hsig, hdig, localAsset,
          hostingLocals_coherent hash appID fs es hnd.2 hcofs]
      · have hco' : cacheCoherent hash appID
            (cachePut es ⟨appID, f.path, hash f.content, f.size, f.mtime⟩) fs := by
          intro e he g hg hea hep hes hem
          rcases mem_cachePut he with h1 | h1
          · exfalso
            apply hnd.1
            have hfg : f.path = g.path := by rw [← hep, h1]
            rw [hfg]
            exact List.mem_map_of_mem HostingFile.path hg
          · exact hco e h1 g (List.mem_cons_of_mem f hg) hea hep hes hem
        simp [hl, hsig, localAsset,
          hostingLocals_coherent hash appID fs _ hnd.2 hco']
    | none =>
      have hco' : cacheCoherent hash appID
          (cachePut es ⟨appID, f.path, hash f.content, f.size, f.mtime⟩) fs := by
        intro e he g hg hea hep hes hem
        rcases mem_cachePut he with h1 | h1
        · exfalso
          apply hnd.1
          have hfg : f.path = g.path := by rw [← hep, h1]
          rw [hfg]
          exact List.mem_map_of_mem HostingFile.path hg
        · exact hco e h1 g (List.mem_cons_of_mem f hg) hea hep hes hem
      simp [hl, localAsset, hostingLocals_coherent hash appID fs _ hnd.2 hco']

/-! ### Claim theorems -/

/-- C7: for every pair of local and remote dependency snapshots, the
dependency diff emits zero or one entry: none when both absent or both
present with equal digest; Added when only local is present; Removed when
only remote is present; Changed when both are present with differing
digests. -/
theorem dependencyDiff_cases (l r : DependencySnapshot) :
    (dependencyDiff l r).length ≤ 1 ∧
    (l.present = false → r.present = false → dependencyDiff l r = []) ∧
    (l.present = true → r.present = true → l.digest = r.digest →
      dependencyDiff l r = []) ∧
    (l.present = true → r.present = false →
      dependencyDiff l r = [⟨.added, "dependency-archive", .dependency, ""⟩]) ∧
    (l.present = false → r.present = true →
      dependencyDiff l r = [⟨.removed, "dependency-archive", .dependency, ""⟩]) ∧
    (l.present = true → r.present = true → l.digest ≠ r.digest →
      dependencyDiff l r = [⟨.changed, "dependency-archive", .dependency, ""⟩]) := by
  refine ⟨?_, ?_, ?_, ?_, ?_, ?_⟩
  · obtain ⟨lp, ld⟩ := l
    obtain ⟨rp, rd⟩ := r
    cases lp <;> cases rp <;> simp [dependencyDiff] <;> split <;> simp
  · intro h1 h2
    simp [dependencyDiff, h1, h2]
  · intro h1 h2 h3
    simp [dependencyDiff, h1, h2, h3]
  · intro h1 h2
    simp [dependencyDiff, h1, h2]
  · intro h1 h2
    simp [dependencyDiff, h1, h2]
  · intro h1 h2 h3
    simp [dependencyDiff, h1, h2, h3]

/-- C7 witness: a present local archive against an absent remote one yields
exactly the Added entry. -/
theorem dependencyDiff_cases_witness :
    dependencyDiff ⟨true, some 2⟩ ⟨false, none⟩ =
      [⟨.added, "dependency-archive", .dependency, ""⟩] :=
  (dependencyDiff_cases ⟨true, some 2⟩ ⟨false, none⟩).2.2.2.1 rfl rfl

/-- C6: for every snapshot and every option setting, diffing the snapshot
against itself yields the empty sequence of diff entries, provided paths are
unique within the configuration tree and within the hosting file set. -/
theorem diffEngine_refl (hash : List Nat → Nat) (s : Snapshot)
    (opts : DiffOptions) (hc : (s.config.map Prod.fst).Nodup)
    (hh : (s.hostingFiles.map HostingFile.path).Nodup) :
    diffEngine hash s s opts = [] := by
  unfold diffEngine
  rw [configDiff_refl s.config hc, dependencyDiff_refl]
  have hpaths : ((s.hostingFiles.map (localAsset hash)).map HostingAsset.path).Nodup := by
    rw [List.map_map]
    exact hh
  rw [manifestOf, hostingDiffCore_refl _ hpaths]
  simp

/-- C6 witness: a concrete two-file snapshot diffed against itself with all
facets requested produces no entries. -/
theorem diffEngine_refl_witness :
    diffEngine (fun c => c.length)
      ⟨[("a.json", [1, 2]), ("b.json", [3])], ⟨true, some 7⟩,
        [⟨"img.png", [9, 9], 2, 5, [("content-type", "image/png")]⟩]⟩
      ⟨[("a.json", [1, 2]), ("b.json", [3])], ⟨true, some 7⟩,
        [⟨"img.png", [9, 9], 2, 5, [("content-type", "image/png")]⟩]⟩
      ⟨true, true⟩ = [] :=
  diffEngine_refl (fun c => c.length) _ ⟨true, true⟩ (by decide) (by decide)

/-- C9: when loading the local application succeeds but the loaded app's root
directory is empty, the handler returns the error "no app directory found at
<path>" with only the load event in the trace — before contacting the remote
service for any facet — and produces no diff entries. -/
theorem no_app_directory_error (c : Clients) (prof : Profile) (inp : DiffInputs)
    (app : LocalApp) (hload : c.loadApp inp.localPath = .ok app)
    (hroot : app.rootDir = "") :
    commandDiffHandler c prof inp =
      ([.loadApp inp.localPath],
       .error ("no app directory found at " ++ inp.localPath)) := by
  simp [commandDiffHandler, hload, hroot]

/-- C9 witness: a loaded app with an empty root directory fails with the
no-app-directory message after only the load step. -/
theorem no_app_directory_error_witness :
    commandDiffHandler rootlessClients ⟨"cache"⟩ ⟨"p", "", "", true, true⟩ =
      ([.loadApp "p"], .error ("no app directory found at " ++ "p")) :=
  no_app_directory_error rootlessClients ⟨"cache"⟩ ⟨"p", "", "", true, true⟩
    ⟨"", 0⟩ rfl rfl

/-- C1: on a successful run the resulting diff sequence is the configuration
entries, then the dependency entries (when requested), then the hosting
entries (when requested) — the fixed facet order Config, Dependency, Hosting,
each facet's own sequence kept intact. -/
theorem diff_entries_facet_order (c : Clients) (prof : Profile)
    (inp : DiffInputs) (app : LocalApp) (r : RealmApp)
    (cds dds hds : List String) (up : String) (hostingHandle assetsHandle : Nat)
    (hload : c.loadApp inp.localPath = .ok app)
    (hroot : ¬ app.rootDir = "")
    (hres : c.resolveApp = .ok r)
    (hdiff : c.diff r.groupID r.id app.appData = .ok cds)
    (hprep : c.prepareDependencies app = .ok up)
    (hdep : c.diffDependencies r.groupID r.id up = .ok dds)
    (hfind : c.findAppHosting app.rootDir = .ok hostingHandle)
    (hassets : c.hostingAssets r.groupID r.id = .ok assetsHandle)
    (hhost : c.hostingDiffs hostingHandle prof.hostingAssetCachePath r.id
      assetsHandle = .ok hds) :
    (commandDiffHandler c prof inp).2 =
      .ok (cds ++ (if inp.includeDependencies then dds else [])
        ++ (if inp.includeHosting then hds else [])) := by
  cases hd : inp.includeDependencies <;> cases hh : inp.includeHosting <;>
    simp [commandDiffHandler, depPhase, hostPhase, hload, hroot, hres, hdiff,
      hprep, hdep, hfind, hassets, hhost, hd, hh]

/-- C1 witness: with all facets requested and each facet yielding one entry,
the handler returns the three entries in Config, Dependency, Hosting order. -/
theorem diff_entries_facet_order_witness :
    (commandDiffHandler sampleClients ⟨"cache"⟩ ⟨"p", "", "", true, true⟩).2 =
      .ok ["c1", "d1", "h1"] := by
  have h := diff_entries_facet_order sampleClients ⟨"cache"⟩
    ⟨"p", "", "", true, true⟩ ⟨"root", 0⟩ ⟨"g", "a"⟩ ["c1"] ["d1"] ["h1"] "up"
    0 0 rfl (by decide) rfl rfl rfl rfl rfl rfl rfl
  simpa using h

/-- C5: when the concatenated sequence of diff entries over all requested
facets is empty, the handler prints the "no differences" sentinel and prints
no diff entries. -/
theorem empty_diff_prints_identical (c : Clients) (prof : Profile)
    (inp : DiffInputs) (h : (commandDiffHandler c prof inp).2 = .ok []) :
    DiffEvent.printIdentical ∈ (commandDiffHandler c prof inp).1 ∧
    ∀ ds, DiffEvent.printDiffs ds ∉ (commandDiffHandler c prof inp).1 := by
  obtain ⟨app, r, hshape⟩ := commandDiffHandler_ok_shape c prof inp h
  constructor
  · rw [hshape]
    simp
  · intro ds hmem
    rw [hshape] at hmem
    simp at hmem
    rcases hmem with h1 | h2
    · have := depPhase_no_print c inp app r _ h1
      simp [DiffEvent.isPrint] at this
    · have := hostPhase_no_print c prof inp app r _ h2
      simp [DiffEvent.isPrint] at this

/-- C5 witness: collaborators with no differences in any facet lead to the
sentinel print and no diff-entries print. -/
theorem empty_diff_prints_identical_witness :
    DiffEvent.printIdentical ∈
      (commandDiffHandler quietClients ⟨"cache"⟩ ⟨"p", "", "", true, true⟩).1 ∧
    DiffEvent.printDiffs ["x"] ∉
      (commandDiffHandler quietClients ⟨"cache"⟩ ⟨"p", "", "", true, true⟩).1 :=
  ⟨(empty_diff_prints_identical quietClients ⟨"cache"⟩
      ⟨"p", "", "", true, true⟩ rfl).1,
   (empty_diff_prints_identical quietClients ⟨"cache"⟩
      ⟨"p", "", "", true, true⟩ rfl).2 ["x"]⟩

/-- C4: with includeDependencies=false and includeHosting=false the handler
emits no dependency-accessor, hosting-accessor, or cache event, and its whole
outcome is unchanged under arbitrary replacement of the dependency and
hosting collaborators and of the cache path: the result depends only on the
configuration facet. -/
theorem config_only_frame (c c' : Clients) (prof prof' : Profile)
    (inp : DiffInputs) (hd : inp.includeDependencies = false)
    (hh : inp.includeHosting = false) (hla : c'.loadApp = c.loadApp)
    (hra : c'.resolveApp = c.resolveApp) (hdi : c'.diff = c.diff) :
    (commandDiffHandler c prof inp).1.filter DiffEvent.touchesDepHostCache = [] ∧
    commandDiffHandler c' prof' inp = commandDiffHandler c prof inp := by
  have hdp : ∀ app r, depPhase c inp app r = ([], .ok []) :=
    fun app r => depPhase_skip c inp app r hd
  have hhp : ∀ app r, hostPhase c prof inp app r = ([], .ok []) :=
    fun app r => hostPhase_skip c prof inp app r hh
  have hdp' : ∀ app r, depPhase c' inp app r = ([], .ok []) :=
    fun app r => depPhase_skip c' inp app r hd
  have hhp' : ∀ app r, hostPhase c' prof' inp app r = ([], .ok []) :=
    fun app r => hostPhase_skip c' prof' inp app r hh
  constructor
  · rw [List.filter_eq_nil]
    intro ev hev
    unfold commandDiffHandler at hev
    simp only [hdp, hhp] at hev
    split at hev
    · simp at hev
      simp [hev, DiffEvent.touchesDepHostCache]
    · split at hev
      · simp at hev
        simp [hev, DiffEvent.touchesDepHostCache]
      · split at hev
        · simp at hev
          rcases hev with h | h <;> simp [h, DiffEvent.touchesDepHostCache]
        · split at hev
          · simp at hev
            rcases hev with h | h | h <;>
              simp [h, DiffEvent.touchesDepHostCache]
          · simp at hev
            rcases hev with h | h | h | h
            · simp [h, DiffEvent.touchesDepHostCache]
            · simp [h, DiffEvent.touchesDepHostCache]
            · simp [h, DiffEvent.touchesDepHostCache]
            · subst h
              split <;> simp [DiffEvent.touchesDepHostCache]
  · unfold commandDiffHandler
    rw [hla, hra, hdi]
    simp only [hdp, hhp, hdp', hhp']

/-- C4 witness: replacing every dependency/hosting collaborator and the cache
path leaves a configuration-only run untouched, and its trace holds no
dependency, hosting or cache event. -/
theorem config_only_frame_witness :
    (commandDiffHandler sampleClients ⟨"cache"⟩
      ⟨"p", "", "", false, false⟩).1.filter DiffEvent.touchesDepHostCache = [] ∧
    commandDiffHandler sampleClientsAlt ⟨"other"⟩ ⟨"p", "", "", false, false⟩ =
      commandDiffHandler sampleClients ⟨"cache"⟩ ⟨"p", "", "", false, false⟩ :=
  config_only_frame sampleClients sampleClientsAlt ⟨"cache"⟩ ⟨"other"⟩
    ⟨"p", "", "", false, false⟩ rfl rfl rfl rfl rfl

/-- C2: whenever the diff handler fails, no print was performed — no diff
entries and no sentinel are output — and the returned error is verbatim one
produced at a handler step: the local load, the missing-app-directory check,
the remote resolution, or a facet accessor. -/
theorem diff_error_aborts_no_partial_output (c : Clients) (prof : Profile)
    (inp : DiffInputs) (e : String)
    (h : (commandDiffHandler c prof inp).2 = .error e) :
    printEvents (commandDiffHandler c prof inp).1 = [] ∧
    verbatimStepError c inp e := by
  unfold commandDiffHandler at h
  split at h
  · rename_i e0 heqLoad
    simp at h
    constructor
    · simp [commandDiffHandler, heqLoad, printEvents, DiffEvent.isPrint]
    · exact Or.inl (by rw [heqLoad, h])
  · rename_i app heqLoad
    split at h
    · rename_i hroot
      simp at h
      constructor
      · simp [commandDiffHandler, heqLoad, hroot, printEvents, DiffEvent.isPrint]
      · exact Or.inr (Or.inl h.symm)
    · rename_i hroot
      split at h
      · rename_i e0 heqRes
        simp at h
        constructor
        · simp [commandDiffHandler, heqLoad, hroot, heqRes, printEvents,
            DiffEvent.isPrint]
        · exact Or.inr (Or.inr (Or.inl (by rw [heqRes, h])))
      · rename_i r heqRes
        split at h
        · rename_i e0 heqDiff
          simp at h
          constructor
          · simp [commandDiffHandler, heqLoad, hroot, heqRes, heqDiff,
              printEvents, DiffEvent.isPrint]
          · exact Or.inr (Or.inr (Or.inr (Or.inl
              ⟨r.groupID, r.id, app.appData, by rw [heqDiff, h]⟩)))
        · rename_i d0 heqDiff
          split at h
          · rename_i trD e0 heqD
            simp at h
            have herr : (depPhase c inp app r).2 = .error e := by
              rw [heqD, h]
            constructor
            · simp [commandDiffHandler, heqLoad, hroot, heqRes, heqDiff, heqD,
                printEvents_append, printEvents, DiffEvent.isPrint]
              intro a ha
              exact depPhase_no_print c inp app r a (by rw [heqD]; exact ha)
            · rcases depPhase_error c inp app r e herr with h5 | h6
              · exact Or.inr (Or.inr (Or.inr (Or.inr (Or.inl h5))))
              · exact Or.inr (Or.inr (Or.inr (Or.inr (Or.inr (Or.inl h6)))))
          · rename_i trD d1 heqD
            split at h
            · rename_i trH e0 heqH
              simp at h
              have herr : (hostPhase c prof inp app r).2 = .error e := by
                rw [heqH, h]
              constructor
              · simp [commandDiffHandler, heqLoad, hroot, heqRes, heqDiff,
                  heqD, heqH, printEvents_append, printEvents,
                  DiffEvent.isPrint]
                constructor
                · intro a ha
                  exact depPhase_no_print c inp app r a (by rw [heqD]; exact ha)
                · intro a ha
                  exact hostPhase_no_print c prof inp app r a
                    (by rw [heqH]; exact ha)
              · rcases hostPhase_error c prof inp app r e herr with h7 | h8 | h9
                · exact Or.inr (Or.inr (Or.inr (Or.inr (Or.inr (Or.inr
                    (Or.inl h7))))))
                · exact Or.inr (Or.inr (Or.inr (Or.inr (Or.inr (Or.inr
                    (Or.inr (Or.inl h8)))))))
                · exact Or.inr (Or.inr (Or.inr (Or.inr (Or.inr (Or.inr
                    (Or.inr (Or.inr h9)))))))
            · rename_i trH d2 heqH
              simp at h

/-- C2 witness: a failing local load aborts the diff with the load error
verbatim and no print. -/
theorem diff_error_aborts_no_partial_output_witness :
    printEvents (commandDiffHandler failingLoadClients ⟨"cache"⟩
      ⟨"p", "", "", true, true⟩).1 = [] ∧
    verbatimStepError failingLoadClients ⟨"p", "", "", true, true⟩
      "open: no such file" :=
  diff_error_aborts_no_partial_output failingLoadClients ⟨"cache"⟩
    ⟨"p", "", "", true, true⟩ "open: no such file" rfl


/-- C3: after a hosting-diff run, a second run on the unchanged file performs
no hashing work; when the file content (and hence its modification signature)
has changed, the second run re-hashes it, insert-or-replaces the cache entry,
and reports a Changed entry. -/
theorem hosting_cache_second_run (hash : List Nat → Nat)
    (es : List AssetCacheEntry) (appID : String) (f f' : HostingFile)
    (hpath : f'.path = f.path)
    (hsig : f'.size ≠ f.size ∨ f'.mtime ≠ f.mtime)
    (hdig : hash f'.content ≠ hash f.content) :
    (hostingDiffWithCache hash
        (hostingDiffWithCache hash (.ok es) appID [f] [localAsset hash f]).2.1
        appID [f] [localAsset hash f]).2.2 = 0 ∧
    (hostingDiffWithCache hash
        (hostingDiffWithCache hash (.ok es) appID [f] [localAsset hash f]).2.1
        appID [f'] [localAsset hash f]).2.2 = 1 ∧
    (∃ es2,
      (hostingDiffWithCache hash
          (hostingDiffWithCache hash (.ok es) appID [f] [localAsset hash f]).2.1
          appID [f'] [localAsset hash f]).2.1 = .ok es2 ∧
      cacheLookup es2 appID f.path =
        some ⟨appID, f.path, hash f'.content, f'.size, f'.mtime⟩) ∧
    (hostingDiffWithCache hash
        (hostingDiffWithCache hash (.ok es) appID [f] [localAsset hash f]).2.1
        appID [f'] [localAsset hash f]).1 =
      [⟨.changed, f.path, .hosting, "content"⟩] := by
  obtain ⟨es1, hes1, en, hen, hsz, hmt⟩ := digestFor_records hash es appID f
  have hstore1 :
      (hostingDiffWithCache hash (.ok es) appID [f] [localAsset hash f]).2.1 =
        .ok es1 := by
    simp [hostingDiffWithCache, hostingLocalsWithCache]
    exact hes1
  have hd2 : digestFor hash (.ok es1) appID f = (en.digest, .ok es1, 0) := by
    simp [digestFor, hen, hsz, hmt]
  have hlk' : cacheLookup es1 appID f'.path = some en := by
    rw [hpath]
    exact hen
  have hcond : ¬ (en.sizeSig = f'.size ∧ en.mtimeSig = f'.mtime) := by
    rintro ⟨h1, h2⟩
    rcases hsig with h | h
    · exact h (by rw [← h1, hsz])
    · exact h (by rw [← h2, hmt])
  have hd3 : digestFor hash (.ok es1) appID f' =
      (hash f'.content,
       .ok (cachePut es1 ⟨appID, f'.path, hash f'.content, f'.size, f'.mtime⟩),
       1) := by
    simp [digestFor, hlk', hcond]
  refine ⟨?_, ?_, ?_, ?_⟩
  · simp [hostingDiffWithCache, hostingLocalsWithCache, hes1, hd2]
  · simp [hostingDiffWithCache, hostingLocalsWithCache, hes1, hd3]
  · refine ⟨cachePut es1 ⟨appID, f'.path, hash f'.content, f'.size, f'.mtime⟩,
      by simp [hostingDiffWithCache, hostingLocalsWithCache, hes1, hd3], ?_⟩
    rw [← hpath]
    exact cacheLookup_cachePut_self es1
      ⟨appID, f'.path, hash f'.content, f'.size, f'.mtime⟩
  · simp [hostingDiffWithCache, hostingLocalsWithCache, hes1, hd3,
      hostingDiffCore, hostingEntry, findAsset, localAsset, hpath, hdig]

/-- C3 witness: a one-file scenario with a sum hash — the unchanged second
run hashes nothing; the changed second run hashes once and reports the
Changed entry. -/
theorem hosting_cache_second_run_witness :
    (hostingDiffWithCache (fun c => c.foldl (· + ·) 0)
        (hostingDiffWithCache (fun c => c.foldl (· + ·) 0) (.ok []) "a"
          [⟨"img.png", [3], 1, 10, []⟩]
          [localAsset (fun c => c.foldl (· + ·) 0) ⟨"img.png", [3], 1, 10, []⟩]).2.1
        "a" [⟨"img.png", [3], 1, 10, []⟩]
        [localAsset (fun c => c.foldl (· + ·) 0) ⟨"img.png", [3], 1, 10, []⟩]).2.2
      = 0 ∧
    (hostingDiffWithCache (fun c => c.foldl (· + ·) 0)
        (hostingDiffWithCache (fun c => c.foldl (· + ·) 0) (.ok []) "a"
          [⟨"img.png", [3], 1, 10, []⟩]
          [localAsset (fun c => c.foldl (· + ·) 0) ⟨"img.png", [3], 1, 10, []⟩]).2.1
        "a" [⟨"img.png", [7], 1, 11, []⟩]
        [localAsset (fun c => c.foldl (· + ·) 0) ⟨"img.png", [3], 1, 10, []⟩]).2.2
      = 1 ∧
    (hostingDiffWithCache (fun c => c.foldl (· + ·) 0)
        (hostingDiffWithCache (fun c => c.foldl (· + ·) 0) (.ok []) "a"
          [⟨"img.png", [3], 1, 10, []⟩]
          [localAsset (fun c => c.foldl (· + ·) 0) ⟨"img.png", [3], 1, 10, []⟩]).2.1
        "a" [⟨"img.png", [7], 1, 11, []⟩]
        [localAsset (fun c => c.foldl (· + ·) 0) ⟨"img.png", [3], 1, 10, []⟩]).1
      = [⟨.changed, "img.png", .hosting, "content"⟩] := by
  have h := hosting_cache_second_run (fun c => c.foldl (· + ·) 0) [] "a"
    ⟨"img.png", [3], 1, 10, []⟩ ⟨"img.png", [7], 1, 11, []⟩ rfl
    (by decide) (by decide)
  exact ⟨h.1, h.2.1, h.2.2.2⟩

/-- C8: a broken asset cache store never makes the hosting diff fail — it
degrades to hashing every file — and against a coherent working cache the
resulting entries are identical. -/
theorem broken_cache_recovers (hash : List Nat → Nat) (appID : String)
    (files : List HostingFile) (manifest : List HostingAsset)
    (es : List AssetCacheEntry)
    (hnd : (files.map HostingFile.path).Nodup)
    (hco : cacheCoherent hash appID es files) :
    (hostingDiffWithCache hash .broken appID files manifest).1 =
        hostingDiffCore (files.map (localAsset hash)) manifest ∧
    (hostingDiffWithCache hash .broken appID files manifest).2.2 =
        files.length ∧
    (hostingDiffWithCache hash (.ok es) appID files manifest).1 =
        (hostingDiffWithCache hash .broken appID files manifest).1 := by
  refine ⟨?_, ?_, ?_⟩
  · simp [hostingDiffWithCache, hostingLocals_broken]
  · simp [hostingDiffWithCache, hostingLocals_broken]
  · simp [hostingDiffWithCache, hostingLocals_broken,
      hostingLocals_coherent hash appID files es hnd hco]

/-- C8 witness: one local file, an empty manifest, an empty (trivially
coherent) cache — broken-store and working-store runs agree, the broken run
hashing each file once. -/
theorem broken_cache_recovers_witness :
    (hostingDiffWithCache (fun c => c.length) .broken "a"
        [⟨"img.png", [3], 1, 10, []⟩] []).1 =
      hostingDiffCore ([⟨"img.png", [3], 1, 10, []⟩].map
        (localAsset (fun c => c.length))) [] ∧
    (hostingDiffWithCache (fun c => c.length) .broken "a"
        [⟨"img.png", [3], 1, 10, []⟩] []).2.2 = 1 ∧
    (hostingDiffWithCache (fun c => c.length) (.ok []) "a"
        [⟨"img.png", [3], 1, 10, []⟩] []).1 =
      (hostingDiffWithCache (fun c => c.length) .broken "a"
        [⟨"img.png", [3], 1, 10, []⟩] []).1 := by
  have h := broken_cache_recovers (fun c => c.length) "a"
    [⟨"img.png", [3], 1, 10, []⟩] [] [] (by decide)
    (by intro e he; simp at he)
  simpa using h


theorem stableInsert_failed_head (a : SecretOutput) (ha : a.err.isSome = true)
    (l : List SecretOutput) : stableInsert lessDelete a l = a :: l := by
  cases l with
  | nil => rfl
  | cons b l =>
    obtain ⟨v, hv⟩ := Option.isSome_iff_exists.mp ha
    simp [stableInsert, lessDelete, hv]

theorem stableInsert_ok_mid (a : SecretOutput) (ha : a.err = none) :
    ∀ (fs ss : List SecretOutput), (∀ x ∈ fs, x.err.isSome = true) →
      (∀ x ∈ ss, x.err = none) →
      stableInsert lessDelete a (fs ++ ss) = fs ++ a :: ss
  | [], ss, _, hss => by
    cases ss with
    | nil => rfl
    | cons s ss' =>
      have hs : s.err = none := hss s (List.mem_cons_self s ss')
      simp [stableInsert, lessDelete, hs]
  | f :: fs', ss, hfs, hss => by
    have hf : f.err.isSome = true := hfs f (List.mem_cons_self f fs')
    simp only [List.cons_append, stableInsert, lessDelete, hf, ha,
      Option.isNone_none, Bool.and_true, if_pos]
    exact congrArg (f :: ·) (stableInsert_ok_mid a ha fs' ss
      (fun x hx => hfs x (List.mem_cons_of_mem f hx)) hss)

/-- Go's stable sort under the failed-before-succeeded comparison is exactly
the order-preserving partition: failures first, successes after, each in
original order. -/
theorem stableSortBy_partition : ∀ l : List SecretOutput,
    stableSortBy lessDelete l =
      l.filter (fun x => x.err.isSome) ++ l.filter (fun x => x.err.isNone)
  | [] => rfl
  | a :: l => by
    rw [stableSortBy, stableSortBy_partition l]
    cases hae : a.err with
    | some v =>
      rw [stableInsert_failed_head a (by simp [hae])]
      simp [List.filter_cons, hae]
    | none =>
      rw [stableInsert_ok_mid a hae _ _
        (fun x hx => (List.mem_filter.mp hx).2)
        (fun x hx => by
          have h := (List.mem_filter.mp hx).2
          simpa [Option.isNone_iff_eq_none] using h)]
      simp [List.filter_cons, hae]

/-- C10: with a non-empty selection the secrets delete handler attempts
deletion of every selected secret in order (even when earlier deletions
fail), returns success regardless of per-secret failures, and prints rows
partitioned failures-first with each side in original order; with an empty
selection it prints "No secrets to delete" and deletes nothing. -/
theorem secrets_delete_behavior (c : SecretsClients) (app : RealmApp)
    (allSecrets selected : List Secret)
    (hres : c.resolveApp = .ok app)
    (hsec : c.secrets app.groupID app.id = .ok allSecrets)
    (hsel : c.resolveSecrets allSecrets = .ok selected) :
    (commandDeleteHandler c).2 = .ok () ∧
    (selected = [] →
      commandDeleteHandler c = ([.printNoSecrets], .ok ())) ∧
    (selected ≠ [] →
      commandDeleteHandler c =
        ((selected.map fun s => SecretsEvent.deleteSecret s.id) ++
          [.printTable
            (((selected.map fun s =>
                SecretOutput.mk s (c.deleteSecret app.groupID app.id s.id)).filter
                  fun x => x.err.isSome) ++
              ((selected.map fun s =>
                SecretOutput.mk s (c.deleteSecret app.groupID app.id s.id)).filter
                  fun x => x.err.isNone))],
         .ok ())) := by
  refine ⟨?_, ?_, ?_⟩
  · by_cases hsl : selected = [] <;>
      simp [commandDeleteHandler, hres, hsec, hsel, hsl]
  · intro hsl
    simp [commandDeleteHandler, hres, hsec, hsel, hsl]
  · intro hsl
    simp [commandDeleteHandler, hres, hsec, hsel, hsl, stableSortBy_partition]

/-- C10 witness: two selected secrets, the first deletion failing — both
deletions are attempted, the handler succeeds, and the failed row precedes
the successful one in the printed table. -/
theorem secrets_delete_behavior_witness :
    commandDeleteHandler sampleSecretsClients =
      ([.deleteSecret "1", .deleteSecret "2",
        .printTable [⟨⟨"1", "x"⟩, some "delete failed"⟩, ⟨⟨"2", "y"⟩, none⟩]],
       .ok ()) := by
  have h := (secrets_delete_behavior sampleSecretsClients ⟨"g", "a"⟩
    [⟨"1", "x"⟩, ⟨"2", "y"⟩] [⟨"1", "x"⟩, ⟨"2", "y"⟩] rfl rfl rfl).2.2
    (by decide)
  simpa [sampleSecretsClients] using h

end RealmCli
